import Mathlib

/- Verification of the stock-screener core (metrics engine, data validator,
   screening pipeline) against its specification.

   Sources embedded: src/metrics.py, src/validators.py, src/screener_engine.py.

   Numeric model: IEEE-754 doubles are modelled exactly: an inductive `Val`
   with a finite-rational constructor plus `inf`, `ninf` and `nan`.  Exact
   rational arithmetic stands in for floating arithmetic; special-value
   propagation follows IEEE-754.  The sign of zero is not modelled (the code
   never observes it).  A pandas Series is a list of (timestamp, value)
   pairs with strictly increasing timestamps; where only the values matter
   the embedding uses `List Val`. -/

namespace Screener

/-- One float value as held by a pandas/numpy series: finite, +inf, -inf
or NaN. -/
inductive Val where
  | fin (q : ℚ)
  | inf
  | ninf
  | nan
deriving DecidableEq, Repr

namespace Val

/-- IEEE-754 addition on exact values (inf - inf and anything with NaN
give NaN). -/
def add : Val → Val → Val
  | nan, _ => nan
  | _, nan => nan
  | fin a, fin b => fin (a + b)
  | inf, ninf => nan
  | ninf, inf => nan
  | inf, _ => inf
  | ninf, _ => ninf
  | _, inf => inf
  | _, ninf => ninf

/-- IEEE-754 negation. -/
def neg : Val → Val
  | fin a => fin (-a)
  | inf => ninf
  | ninf => inf
  | nan => nan

/-- IEEE-754 subtraction. -/
def sub (x y : Val) : Val := add x (neg y)

/-- IEEE-754 multiplication (0 * inf = NaN). -/
def mul : Val → Val → Val
  | nan, _ => nan
  | _, nan => nan
  | fin a, fin b => fin (a * b)
  | fin a, inf => if 0 < a then inf else if a < 0 then ninf else nan
  | fin a, ninf => if 0 < a then ninf else if a < 0 then inf else nan
  | inf, fin b => if 0 < b then inf else if b < 0 then ninf else nan
  | ninf, fin b => if 0 < b then ninf else if b < 0 then inf else nan
  | inf, inf => inf
  | inf, ninf => ninf
  | ninf, inf => ninf
  | ninf, ninf => inf

/-- IEEE-754 division.  Division of a nonzero finite value by (unsigned)
zero gives +inf for a positive and -inf for a negative numerator, as numpy
does for a positive zero; 0/0 and inf/inf give NaN. -/
def div : Val → Val → Val
  | nan, _ => nan
  | _, nan => nan
  | fin a, fin b =>
      if b = 0 then (if a = 0 then nan else if 0 < a then inf else ninf)
      else fin (a / b)
  | fin _, inf => fin 0
  | fin _, ninf => fin 0
  | inf, fin b => if b < 0 then ninf else inf
  | ninf, fin b => if b < 0 then inf else ninf
  | _, _ => nan

/-- np.isfinite on one value. -/
def isFinite : Val → Bool
  | fin _ => true
  | _ => false

/-- The rational carried by a finite value (0 for the special values; only
used beneath an `allFinite` guard). -/
def toRat : Val → ℚ
  | fin q => q
  | _ => 0

end Val

/-- np.isfinite(xs).all() for a series of values. -/
def allFinite (xs : List Val) : Bool := xs.all fun v => v.isFinite

/-- Underlying rationals of a series (meaningful beneath `allFinite`). -/
def toQ (xs : List Val) : List ℚ := xs.map Val.toRat

/-- Positional elementwise combination of two series as pandas aligns two
default-indexed Series: positions present in only one operand yield NaN. -/
def zipFill (f : Val → Val → Val) : List Val → List Val → List Val
  | [], [] => []
  | [], _ :: ys => Val.nan :: zipFill f [] ys
  | _ :: xs, [] => Val.nan :: zipFill f xs []
  | x :: xs, y :: ys => f x y :: zipFill f xs ys

/-- Elementwise series subtraction (stock_returns - benchmark_returns). -/
def seriesSub (xs ys : List Val) : List Val := zipFill Val.sub xs ys

/-- Arithmetic mean of a list of rationals (pandas Series.mean on finite
data; empty list gives 0/0 = 0, a case every caller guards against). -/
def qmean (xs : List ℚ) : ℚ := xs.sum / xs.length

/-- Unbiased (N-1 denominator) sample variance, pandas Series.var(ddof=1)
on finite data; callers guard length at least 2. -/
def qvar (xs : List ℚ) : ℚ :=
  ((xs.map fun x => (x - qmean xs) ^ 2).sum) / ((xs.length : ℚ) - 1)

/-- Unbiased (N-1 denominator) sample covariance, np.cov(xs, ys)[0, 1] on
finite equal-length data. -/
def qcov (xs ys : List ℚ) : ℚ :=
  ((List.zipWith (fun a b => (a - qmean xs) * (b - qmean ys)) xs ys).sum)
    / ((xs.length : ℚ) - 1)

/-- Product of the non-NaN entries of a series, the running product that
pandas cumprod (skipna=True, the default) carries across NaN entries. -/
def prodSkipNa (xs : List Val) : Val :=
  xs.foldl (fun acc x => if x = Val.nan then acc else acc.mul x) (Val.fin 1)

/-- Last element of pandas Series.cumprod(): NaN when the last entry is
NaN (skipna leaves NaN entries in place), otherwise the product of all
non-NaN entries; `.iloc[-1]` of an empty series raises, which every caller
turns into NaN. -/
def cumprodLast (xs : List Val) : Val :=
  match xs.getLast? with
  | none => Val.nan
  | some l => if l = Val.nan then Val.nan else prodSkipNa xs

/-- Value of a computed metric.  `finSqrt a b` denotes the real number
a * sqrt b: the two ratio metrics divide a rational mean by a sample
standard deviation, the square root of a rational variance. -/
inductive MVal where
  | fin (q : ℚ)
  | finSqrt (a b : ℚ)
  | inf
  | ninf
  | nan
deriving DecidableEq, Repr

/-- A series value seen as a metric value. -/
def Val.toM : Val → MVal
  | .fin q => .fin q
  | .inf => .inf
  | .ninf => .ninf
  | .nan => .nan

/-- A metric value is finite when it is a rational or a rational multiple
of a real square root. -/
def MVal.isFiniteM : MVal → Bool
  | .fin _ => true
  | .finSqrt _ _ => true
  | _ => false

/-- InformationRatio.calculate (src/metrics.py lines 13-31): NaN for
fewer than 2 observations on either side, a non-finite excess series, or
zero excess standard deviation; otherwise mean(excess)/std(excess).
With excess all finite, std = sqrt(var) is zero or NaN exactly when the
rational variance is zero, and mean/sqrt(var) = (mean/var) * sqrt(var). -/
def InformationRatio.calculate (s b : List Val) : MVal :=
  if s.length < 2 || b.length < 2 then .nan
  else
    let excess := seriesSub s b
    if !allFinite excess then .nan
    else
      let e := toQ excess
      let v := qvar e
      if v = 0 then .nan else .finSqrt (qmean e / v) v

/-- SharpeRatio.calculate (src/metrics.py lines 33-54) with annual risk
free rate rfA (the constructor divides it by 252): NaN for fewer than 2
observations or a non-finite stock series or zero stock standard
deviation; otherwise mean(stock - rf)/std(stock) * sqrt(252)
= ((mean excess)/var) * sqrt(252 * var).  The benchmark argument is
accepted and ignored, as in the source. -/
def SharpeRatio.calculate (rfA : ℚ) (s _b : List Val) : MVal :=
  let rfp := rfA / 252
  if s.length < 2 then .nan
  else if !allFinite s then .nan
  else
    let q := toQ s
    let excess := q.map fun x => x - rfp
    let v := qvar q
    if v = 0 then .nan else .finSqrt (qmean excess / v) (252 * v)

/-- BetaCalculator.calculate (src/metrics.py lines 56-74): NaN for fewer
than 2 observations on either side, non-finite inputs, or zero benchmark
variance; np.cov raises on ragged input, which the except-branch turns
into NaN; otherwise cov(stock, benchmark)/var(benchmark).  On finite
inputs neither the covariance nor the variance can be NaN. -/
def BetaCalculator.calculate (s b : List Val) : MVal :=
  if s.length < 2 || b.length < 2 then .nan
  else if !(allFinite s && allFinite b) then .nan
  else if s.length ≠ b.length then .nan
  else
    let cov := qcov (toQ s) (toQ b)
    let v := qvar (toQ b)
    if v = 0 then .nan else .fin (cov / v)

/-- AlphaCalculator.calculate (src/metrics.py lines 76-99) with annual
risk free rate rfA (the constructor divides it by 252): NaN for fewer
than 2 observations, non-finite inputs, or an undefined beta; otherwise
(mean(stock) - (rf + beta * (mean(benchmark) - rf))) * 252. -/
def AlphaCalculator.calculate (rfA : ℚ) (s b : List Val) : MVal :=
  let rfp := rfA / 252
  if s.length < 2 || b.length < 2 then .nan
  else if !(allFinite s && allFinite b) then .nan
  else
    match BetaCalculator.calculate s b with
    | .fin beta =>
        let expected := rfp + beta * (qmean (toQ b) - rfp)
        .fin ((qmean (toQ s) - expected) * 252)
    | _ => .nan

/-- MetricsEngine._calculate_relative_strength (src/metrics.py lines
163-184): NaN when either series is empty or the benchmark cumulative
product is zero or NaN; otherwise the ratio of last cumulative products. -/
def relative_strength (s b : List Val) : MVal :=
  if s.length = 0 || b.length = 0 then .nan
  else
    let sc := cumprodLast (s.map fun x => Val.add (Val.fin 1) x)
    let bc := cumprodLast (b.map fun x => Val.add (Val.fin 1) x)
    if bc = Val.fin 0 || bc = Val.nan then .nan
    else (Val.div sc bc).toM

/-- Total Return as computed inline by MetricsEngine.calculate_all_metrics
(src/metrics.py lines 145-154): (1 + stock).cumprod().iloc[-1] - 1, NaN
for an empty series. -/
def total_return (s : List Val) : MVal :=
  if 0 < s.length then
    (Val.sub (cumprodLast (s.map fun x => Val.add (Val.fin 1) x)) (Val.fin 1)).toM
  else .nan

/-- The six metric names, in the insertion order of
MetricsEngine.calculate_all_metrics. -/
def metricNames : List String :=
  ["Information Ratio", "Sharpe Ratio", "Beta", "Alpha",
   "Relative Strength", "Total Return"]

/-- MetricsEngine.calculate_all_metrics (src/metrics.py lines 110-157)
with the default calculators (risk-free rate 0.03): an all-NaN mapping for
empty input, otherwise each calculator in registration order followed by
Relative Strength and Total Return.  Each calculator absorbs its own
failures into NaN, so the per-metric try/except never fires for the four
registered calculators. -/
def calculate_all_metrics (s b : List Val) : List (String × MVal) :=
  if s.length = 0 || b.length = 0 then metricNames.map fun n => (n, MVal.nan)
  else
    [("Information Ratio", InformationRatio.calculate s b),
     ("Sharpe Ratio", SharpeRatio.calculate (3/100) s b),
     ("Beta", BetaCalculator.calculate s b),
     ("Alpha", AlphaCalculator.calculate (3/100) s b),
     ("Relative Strength", relative_strength s b),
     ("Total Return", total_return s)]

/-- pandas isnull on one value (inf is not null). -/
def isNa (v : Val) : Bool := v = Val.nan

/-- Elementwise `value <= 0` as pandas compares floats (NaN <= 0 is
False, -inf <= 0 is True). -/
def leZero : Val → Bool
  | .fin q => q ≤ 0
  | .ninf => true
  | _ => false

/-- Elementwise `value.abs() > 0.5` (NaN compares False). -/
def absGtHalf : Val → Bool
  | .fin q => 1/2 < |q|
  | .inf => true
  | .ninf => true
  | .nan => false

/-- Forward fill (pandas ffill): a NaN entry takes the preceding non-NaN
value, leading NaNs stay NaN. -/
def ffillGo (prev : Val) : List Val → List Val
  | [] => []
  | x :: xs =>
      if x = Val.nan then prev :: ffillGo prev xs else x :: ffillGo x xs

/-- Forward fill of a value list. -/
def ffillVals (xs : List Val) : List Val := ffillGo Val.nan xs

/-- pandas Series.pct_change() on the values of a series, with the
historical default fill_method=pad: forward-fill, then each entry divided
by its predecessor, minus one; the first entry is NaN. -/
def pctChangeVals (xs : List Val) : List Val :=
  let f := ffillVals xs
  match f with
  | [] => []
  | _ :: _ =>
      Val.nan ::
        List.zipWith (fun prev cur => Val.sub (Val.div cur prev) (Val.fin 1)) f f.tail

/-- pandas Series.diff() on the values of a series: consecutive
difference, NaN first entry, no filling. -/
def diffVals (xs : List Val) : List Val :=
  match xs with
  | [] => []
  | _ :: _ =>
      Val.nan :: List.zipWith (fun prev cur => Val.sub cur prev) xs xs.tail

/-- dropna on a value list (drops NaN only; inf survives). -/
def dropNaVals (xs : List Val) : List Val := xs.filter fun v => v ≠ Val.nan

/-- DataValidator.sanitize_ticker (src/validators.py lines 61-63):
ticker.strip().upper().replace(" ", "").  strip/upper are modelled on
the ASCII range Lean's Char primitives cover; tickers are ASCII. -/
def pyStrip (l : List Char) : List Char :=
  ((l.dropWhile Char.isWhitespace).reverse.dropWhile Char.isWhitespace).reverse

/-- DataValidator.sanitize_ticker as a string transformation. -/
def DataValidator.sanitize_ticker (t : String) : String :=
  ⟨((pyStrip t.data).map Char.toUpper).filter fun c => c ≠ ' '⟩

/-- DataValidator.check_data_quality (src/validators.py lines 65-75):
fails when every value is null or any value is ≤ 0. -/
def DataValidator.check_data_quality (vals : List Val) : Bool :=
  if vals.all isNa then false
  else if vals.any leZero then false
  else true

/-- DataValidator.detect_anomalies (src/validators.py lines 77-93): at
most the two labels, extreme price movements (more than 1 percent of
returns exceed 0.5 in absolute value) and extended flat periods (zero
consecutive differences exceed 10 percent of the series length). -/
def DataValidator.detect_anomalies (vals : List Val) : List String :=
  let anomalies : List String := []
  let returns := dropNaVals (pctChangeVals vals)
  let anomalies :=
    if 0 < returns.length then
      if ((returns.countP absGtHalf : ℚ)) > (returns.length : ℚ) * (1/100) then
        anomalies ++ ["Extreme price movements"]
      else anomalies
    else anomalies
  let flat := (diffVals vals).countP fun v => v = Val.fin 0
  if ((flat : ℚ)) > (vals.length : ℚ) * (1/10) then
    anomalies ++ ["Extended flat periods"]
  else anomalies

/-- Python "{:.1%}" formatting of a rational in [0, 1]: percentage with
one decimal place.  (Python rounds the underlying float half-to-even;
the difference at exact midpoints is irrelevant to every claim.) -/
def fmtPct (q : ℚ) : String :=
  let tenths : ℤ := round (q * 1000)
  toString (tenths / 10) ++ "." ++ toString (tenths % 10) ++ "%"

/-- DataValidator.validate_stock_data (src/validators.py lines 11-59) on
a Series (the DataFrame branch is not exercised by the screener): None or
empty, then length < 20, then missing fraction > 10 percent, then data
quality, then anomaly count > 3, short-circuiting on the first failure. -/
def DataValidator.validate_stock_data (data : Option (List Val)) (ticker : String) :
    Bool × String :=
  match data with
  | none => (false, "No data for " ++ ticker)
  | some d =>
    if d.length = 0 then (false, "No data for " ++ ticker)
    else if d.length < 20 then
      (false, "Insufficient data points: " ++ toString d.length)
    else
      let missingPct : ℚ := (d.countP isNa : ℚ) / (d.length : ℚ)
      if missingPct > 1/10 then
        (false, "Too many missing values: " ++ fmtPct missingPct)
      else if !DataValidator.check_data_quality d then
        (false, "Poor data quality detected")
      else
        let anomalies := DataValidator.detect_anomalies d
        if 3 < anomalies.length then
          (false, "Multiple anomalies detected: " ++
            String.intercalate ", " (anomalies.take 3))
        else (true, "Valid")

/- Spec-side restatement of the validation contract, used to verify the
claimed check order: five named checks, each yielding the failure reason
when it fails, tried in the claimed order with the first failure
returned. -/

/-- Check 1 of the claimed order: null or empty input. -/
def specCheckEmpty (data : Option (List Val)) (t : String) : Option String :=
  match data with
  | none => some ("No data for " ++ t)
  | some d => if d.length = 0 then some ("No data for " ++ t) else none

/-- Check 2 of the claimed order: length below the minimum data points. -/
def specCheckLength (data : Option (List Val)) : Option String :=
  let d := data.getD []
  if d.length < 20 then some ("Insufficient data points: " ++ toString d.length)
  else none

/-- Check 3 of the claimed order: missing-value fraction above 10 percent. -/
def specCheckMissing (data : Option (List Val)) : Option String :=
  let d := data.getD []
  let missingPct : ℚ := (d.countP isNa : ℚ) / (d.length : ℚ)
  if missingPct > 1/10 then some ("Too many missing values: " ++ fmtPct missingPct)
  else none

/-- Check 4 of the claimed order: data quality (all null or any value ≤ 0). -/
def specCheckQuality (data : Option (List Val)) : Option String :=
  let d := data.getD []
  if !DataValidator.check_data_quality d then some "Poor data quality detected"
  else none

/-- Check 5 of the claimed order: anomaly count above 3. -/
def specCheckAnomaly (data : Option (List Val)) : Option String :=
  let d := data.getD []
  let anomalies := DataValidator.detect_anomalies d
  if 3 < anomalies.length then
    some ("Multiple anomalies detected: " ++
      String.intercalate ", " (anomalies.take 3))
  else none

/-- First failing check wins; all passing means Valid. -/
def firstFailure : List (Option String) → Bool × String
  | [] => (true, "Valid")
  | none :: rest => firstFailure rest
  | some r :: _ => (false, r)

/-- The validator as the spec states it: the five checks in the claimed
fixed order, short-circuiting on the first failure. -/
def validateSpecOrder (data : Option (List Val)) (t : String) : Bool × String :=
  firstFailure
    [specCheckEmpty data t, specCheckLength data, specCheckMissing data,
     specCheckQuality data, specCheckAnomaly data]

/-- DataValidator.validate_stock_data with the multiple-anomalies failure
branch deleted: used to state that the branch is unreachable. -/
def validateNoAnomalyBranch (data : Option (List Val)) (ticker : String) :
    Bool × String :=
  match data with
  | none => (false, "No data for " ++ ticker)
  | some d =>
    if d.length = 0 then (false, "No data for " ++ ticker)
    else if d.length < 20 then
      (false, "Insufficient data points: " ++ toString d.length)
    else
      let missingPct : ℚ := (d.countP isNa : ℚ) / (d.length : ℚ)
      if missingPct > 1/10 then
        (false, "Too many missing values: " ++ fmtPct missingPct)
      else if !DataValidator.check_data_quality d then
        (false, "Poor data quality detected")
      else (true, "Valid")

/-- A pandas Series with its DatetimeIndex: (timestamp, value) pairs,
timestamps strictly increasing. -/
abbrev Series := List (Nat × Val)

/-- Series.pct_change() keeping the index (first entry NaN). -/
def pct_change (s : Series) : Series :=
  List.zip (s.map Prod.fst) (pctChangeVals (s.map Prod.snd))

/-- Series.dropna() keeping the index. -/
def dropna (s : Series) : Series := s.filter fun p => p.2 ≠ Val.nan

/-- Value stored at a timestamp, if present. -/
def lookupTs (s : Series) (t : Nat) : Option Val :=
  (s.find? fun p => p.1 = t).map Prod.snd

/-- pd.concat([xs, ys], axis=1).dropna() on two NaN-free return series
with unique timestamps: the rows whose timestamp occurs in both, in the
order of xs. -/
def alignReturns (xs ys : Series) : List (Nat × Val × Val) :=
  xs.filterMap fun p => (lookupTs ys p.1).map fun y => (p.1, p.2, y)

/-- Series.tail(n): the last n elements. -/
def takeLast (n : Nat) (l : List α) : List α := l.drop (l.length - n)

/-- ScreenerEngine.calculate_metrics (src/screener_engine.py lines
89-143): percent-change returns for both series, dropna, align by
timestamp, reject an aligned pair shorter than lookback, then run the
metrics engine on the trailing lookback window.  The None-input branches
of the source cannot arise here: the embedding passes concrete series. -/
def ScreenerEngine.calculate_metrics (stock_data benchmark_data : Series)
    (lookback : Nat) : Option (List (String × MVal)) :=
  if stock_data.length = 0 then none
  else if benchmark_data.length = 0 then none
  else
    let stock_returns := dropna (pct_change stock_data)
    let benchmark_returns := dropna (pct_change benchmark_data)
    let aligned := alignReturns stock_returns benchmark_returns
    if aligned.length < lookback then none
    else
      let recent := takeLast lookback aligned
      some (calculate_all_metrics (recent.map fun r => r.2.1)
        (recent.map fun r => r.2.2))

/-- Result of one DataManager.get_stock_data call as the screener sees
it: a raised exception, a None return (fetch failed or no data), or a
price series. -/
inductive FetchResult where
  | err (msg : String)
  | noData
  | data (ps : Series)
deriving DecidableEq

/-- The data provider, abstracted over the symbol. -/
abbrev Fetcher := String → FetchResult

/-- One result row: sanitized ticker and its metric mapping. -/
abbrev Row := String × List (String × MVal)

/-- The Information Ratio column of a row. -/
def irOf (r : Row) : MVal := (List.lookup "Information Ratio" r.2).getD MVal.nan

/-- Sign of the real number a * sqrt b (the square root of a nonpositive
b is 0). -/
def msign (a b : ℚ) : ℤ :=
  if b ≤ 0 then 0 else if 0 < a then 1 else if a < 0 then -1 else 0

/-- Decides a * sqrt b ≤ c * sqrt d by comparing signs, then squares. -/
def sqLe (a b c d : ℚ) : Bool :=
  if msign a b < msign c d then true
  else if msign c d < msign a b then false
  else if msign a b = 1 then decide (a ^ 2 * b ≤ c ^ 2 * d)
  else if msign a b = -1 then decide (c ^ 2 * d ≤ a ^ 2 * b)
  else true

/-- A non-NaN metric value as a pair (a, b) denoting a * sqrt b. -/
def MVal.sqPair : MVal → ℚ × ℚ
  | .fin q => (q, 1)
  | .finSqrt a b => (a, b)
  | _ => (0, 1)

/-- Float order x ≤ y on non-NaN metric values. -/
def MVal.leb (x y : MVal) : Bool :=
  match x, y with
  | .ninf, _ => true
  | _, .ninf => false
  | _, .inf => true
  | .inf, _ => false
  | x, y => sqLe x.sqPair.1 x.sqPair.2 y.sqPair.1 y.sqPair.2

/-- The DataFrame.sort_values(ascending=False, na_position=last default)
ordering on metric values: x may be placed before y. -/
def MVal.bef (x y : MVal) : Bool :=
  if y = .nan then true else if x = .nan then false else MVal.leb y x

/-- Row order of the final report: descending Information Ratio, NaN
last. -/
def rowBef (r1 r2 : Row) : Prop := MVal.bef (irOf r1) (irOf r2) = true

instance : DecidableRel rowBef := fun _ _ => instDecidableEqBool _ _

/-- df.sort_values(ascending=False) modelled as a sort producing a list
ordered by `rowBef` (pandas quicksort fixes one such permutation; every
claim concerns only the resulting order). -/
def sortByIRDesc (rows : List Row) : List Row := List.insertionSort rowBef rows

/-- Body of the per-ticker loop of ScreenerEngine.screen_stocks
(src/screener_engine.py lines 42-78): sanitize, fetch, validate,
calculate metrics, attach the ticker.  `none` is every `continue` path:
an exception raised while processing the instrument (absorbed by the
except branch), a fetch returning None (validate_stock_data(None, _)
fails with "No data"), failed validation, and a None from
calculate_metrics. -/
def ScreenerEngine.processTicker (fetch : Fetcher) (benchmark_data : Series)
    (lookback : Nat) (ticker : String) : Option Row :=
  let clean := DataValidator.sanitize_ticker ticker
  match fetch clean with
  | .err _ => none
  | .noData => none
  | .data stock_data =>
      let verdict :=
        DataValidator.validate_stock_data (some (stock_data.map Prod.snd)) clean
      if !verdict.1 then none
      else
        match ScreenerEngine.calculate_metrics stock_data benchmark_data lookback with
        | none => none
        | some m => some (clean, m)

/-- ScreenerEngine.screen_stocks (src/screener_engine.py lines 24-87):
fetch the benchmark once (None raises the fatal ValueError naming the
benchmark; a raised exception propagates), process each ticker in
isolation, and sort the collected rows descending by Information Ratio;
no rows yields an empty report. -/
def ScreenerEngine.screen_stocks (fetch : Fetcher) (tickers : List String)
    (benchmark : String) (lookback : Nat) : Except String (List Row) :=
  match fetch benchmark with
  | .err m => .error m
  | .noData => .error ("Cannot fetch benchmark data for " ++ benchmark)
  | .data benchmark_data =>
      let results :=
        tickers.filterMap (ScreenerEngine.processTicker fetch benchmark_data lookback)
      if results.isEmpty then .ok [] else .ok (sortByIRDesc results)

/-- The real number a metric value denotes: a rational, or a rational
multiple of a real square root; the special values carry no real (0 is a
placeholder never used for them in any statement). -/
noncomputable def MVal.toR : MVal → ℝ
  | .fin q => (q : ℝ)
  | .finSqrt a b => (a : ℝ) * Real.sqrt b
  | _ => 0

/-- The semantic row order the report is claimed to satisfy: descending
by the real value of the Information Ratio column, NaN rows last. -/
def irDescNanLast (r1 r2 : Row) : Prop :=
  irOf r2 = MVal.nan ∨ (irOf r1 ≠ MVal.nan ∧ (irOf r2).toR ≤ (irOf r1).toR)

/-- The list-level body of sanitize_ticker. -/
def sanList (l : List Char) : List Char :=
  ((pyStrip l).map Char.toUpper).filter fun c => c ≠ ' '

/- Shared lemmas -/

theorem toQ_length (xs : List Val) : (toQ xs).length = xs.length := by
  simp [toQ]

theorem qvar_nonneg (xs : List ℚ) (h2 : 2 ≤ xs.length) : 0 ≤ qvar xs := by
  unfold qvar
  apply div_nonneg
  · apply List.sum_nonneg
    intro x hx
    obtain ⟨a, _, rfl⟩ := List.mem_map.mp hx
    positivity
  · have : (2 : ℚ) ≤ (xs.length : ℚ) := by exact_mod_cast h2
    linarith

theorem seriesSub_self (s : List Val) (hf : allFinite s = true) :
    seriesSub s s = s.map fun _ => Val.fin 0 := by
  induction s with
  | nil => simp [seriesSub, zipFill]
  | cons x xs ih =>
      simp only [allFinite, List.all_cons, Bool.and_eq_true] at hf
      obtain ⟨hx, hxs⟩ := hf
      have h2 : seriesSub xs xs = xs.map fun _ => Val.fin 0 := ih hxs
      simp only [seriesSub, zipFill] at h2 ⊢
      cases x with
      | fin q =>
          rw [List.map_cons, h2]
          have h1 : Val.sub (Val.fin q) (Val.fin q) = Val.fin 0 := by
            simp [Val.sub, Val.add, Val.neg]
          rw [h1]
      | inf => simp [Val.isFinite] at hx
      | ninf => simp [Val.isFinite] at hx
      | nan => simp [Val.isFinite] at hx

theorem allFinite_zeros (n : ℕ) :
    allFinite (List.replicate n (Val.fin 0)) = true := by
  simp [allFinite, Val.isFinite]

theorem qmean_replicate_zero (n : ℕ) :
    qmean (List.replicate n (0 : ℚ)) = 0 := by
  simp [qmean]

theorem qvar_replicate_zero (n : ℕ) :
    qvar (List.replicate n (0 : ℚ)) = 0 := by
  simp [qvar, qmean_replicate_zero]

theorem zipWith_same {α β : Type} (f : α → α → β) (l : List α) :
    List.zipWith f l l = l.map fun a => f a a := by
  induction l with
  | nil => rfl
  | cons x xs ih => simp [ih]

theorem qcov_self (xs : List ℚ) : qcov xs xs = qvar xs := by
  unfold qcov qvar
  rw [zipWith_same]
  congr 2
  apply List.map_congr_left
  intro a _
  ring

theorem foldl_prodSkipNa_fin (xs : List Val) (hf : allFinite xs = true) (a : ℚ) :
    ∃ q : ℚ, (xs.foldl (fun acc x => if x = Val.nan then acc else acc.mul x)
      (Val.fin a)) = Val.fin q := by
  induction xs generalizing a with
  | nil => exact ⟨a, rfl⟩
  | cons x xs ih =>
      simp only [allFinite, List.all_cons, Bool.and_eq_true] at hf
      obtain ⟨hx, hxs⟩ := hf
      cases x with
      | fin q =>
          simpa [Val.mul] using ih hxs (a * q)
      | inf => simp [Val.isFinite] at hx
      | ninf => simp [Val.isFinite] at hx
      | nan => simp [Val.isFinite] at hx

theorem cumprodLast_fin (xs : List Val) (hf : allFinite xs = true)
    (hne : xs ≠ []) : ∃ q : ℚ, cumprodLast xs = Val.fin q := by
  unfold cumprodLast
  cases hgl : xs.getLast? with
  | none => exact absurd (List.getLast?_eq_none_iff.mp hgl) hne
  | some l =>
      have hmem : l ∈ xs := List.mem_of_mem_getLast? hgl
      have hfin : l.isFinite = true := by
        simp only [allFinite, List.all_eq_true] at hf
        exact hf _ hmem
      cases l with
      | fin q =>
          simp only [if_neg (by simp : Val.fin q ≠ Val.nan)]
          exact foldl_prodSkipNa_fin xs hf 1
      | inf => simp [Val.isFinite] at hfin
      | ninf => simp [Val.isFinite] at hfin
      | nan => simp [Val.isFinite] at hfin

theorem allFinite_onePlus (s : List Val) (hf : allFinite s = true) :
    allFinite (s.map fun x => Val.add (Val.fin 1) x) = true := by
  simp only [allFinite, List.all_eq_true] at hf ⊢
  intro v hv
  obtain ⟨x, hx, rfl⟩ := List.mem_map.mp hv
  cases x with
  | fin q => simp [Val.add, Val.isFinite]
  | inf => exact absurd (hf _ hx) (by simp [Val.isFinite])
  | ninf => exact absurd (hf _ hx) (by simp [Val.isFinite])
  | nan => exact absurd (hf _ hx) (by simp [Val.isFinite])

theorem total_return_fin (s : List Val) (hf : allFinite s = true)
    (hne : s ≠ []) : ∃ q : ℚ, total_return s = MVal.fin q := by
  unfold total_return
  have hlen : 0 < s.length := List.length_pos.mpr hne
  obtain ⟨q, hq⟩ := cumprodLast_fin (s.map fun x => Val.add (Val.fin 1) x)
    (allFinite_onePlus s hf) (by simpa using hne)
  refine ⟨q - 1, ?_⟩
  rw [if_pos hlen, hq]
  show (Val.add (Val.fin q) (Val.neg (Val.fin 1))).toM = MVal.fin (q - 1)
  simp [Val.add, Val.neg, Val.toM, sub_eq_add_neg]

theorem calc_branch (s b : List Val) (hs : s ≠ []) (hb : b ≠ []) :
    calculate_all_metrics s b =
      [("Information Ratio", InformationRatio.calculate s b),
       ("Sharpe Ratio", SharpeRatio.calculate (3/100) s b),
       ("Beta", BetaCalculator.calculate s b),
       ("Alpha", AlphaCalculator.calculate (3/100) s b),
       ("Relative Strength", relative_strength s b),
       ("Total Return", total_return s)] := by
  unfold calculate_all_metrics
  rw [if_neg]
  simp [List.length_eq_zero, hs, hb]

theorem lookup_ir (s b : List Val) (hs : s ≠ []) (hb : b ≠ []) :
    List.lookup "Information Ratio" (calculate_all_metrics s b) =
      some (InformationRatio.calculate s b) := by
  rw [calc_branch s b hs hb]; rfl

theorem lookup_beta (s b : List Val) (hs : s ≠ []) (hb : b ≠ []) :
    List.lookup "Beta" (calculate_all_metrics s b) =
      some (BetaCalculator.calculate s b) := by
  rw [calc_branch s b hs hb]; rfl

theorem lookup_tr (s b : List Val) (hs : s ≠ []) (hb : b ≠ []) :
    List.lookup "Total Return" (calculate_all_metrics s b) =
      some (total_return s) := by
  rw [calc_branch s b hs hb]; rfl

theorem ir_identical (s : List Val) (hf : allFinite s = true) :
    InformationRatio.calculate s s = MVal.nan := by
  unfold InformationRatio.calculate
  by_cases h2 : s.length < 2
  · simp [h2]
  · rw [if_neg (by simp [h2])]
    rw [seriesSub_self s hf]
    have hmap : (s.map fun _ => Val.fin 0) = List.replicate s.length (Val.fin 0) := by
      simp [List.map_const']
    rw [hmap]
    simp [allFinite_zeros, toQ, Val.toRat, List.map_replicate, qvar_replicate_zero]

theorem beta_identical (s : List Val) (hf : allFinite s = true) :
    BetaCalculator.calculate s s =
      if s.length < 2 ∨ qvar (toQ s) = 0 then MVal.nan else MVal.fin 1 := by
  unfold BetaCalculator.calculate
  by_cases h2 : s.length < 2
  · simp [h2]
  · rw [if_neg (by simp [h2]), if_neg (by simp [hf]), if_neg (by simp)]
    by_cases hv : qvar (toQ s) = 0
    · simp [qcov_self, hv, h2]
    · simp [qcov_self, hv, h2, div_self hv]

/-- C1 (amended): for every pair of identical, nonempty, all-finite
return series, the Information Ratio is NaN and Total Return is a finite
rational; Beta is NaN exactly when the series has fewer than two points
or zero sample variance, and equals 1 otherwise.  (The claim as frozen
asserts Beta is always NaN; the counterexample below refutes that.) -/
theorem c1_identical_series (s : List Val) (hf : allFinite s = true)
    (hne : s ≠ []) :
    List.lookup "Information Ratio" (calculate_all_metrics s s) = some MVal.nan ∧
    (∃ q : ℚ, List.lookup "Total Return" (calculate_all_metrics s s) =
      some (MVal.fin q)) ∧
    List.lookup "Beta" (calculate_all_metrics s s) =
      some (if s.length < 2 ∨ qvar (toQ s) = 0 then MVal.nan else MVal.fin 1) := by
  refine ⟨?_, ?_, ?_⟩
  · rw [lookup_ir s s hne hne, ir_identical s hf]
  · obtain ⟨q, hq⟩ := total_return_fin s hf hne
    exact ⟨q, by rw [lookup_tr s s hne hne, hq]⟩
  · rw [lookup_beta s s hne hne, beta_identical s hf]

/-- C1 counterexample: the identical two-point series 1 percent, 2 percent
has positive benchmark variance, and the engine returns Beta = 1, not NaN,
refuting the claim that Beta is undefined for every identical pair. -/
theorem c1_counterexample :
    List.lookup "Beta" (calculate_all_metrics
        [Val.fin (1/100), Val.fin (2/100)] [Val.fin (1/100), Val.fin (2/100)]) =
      some (MVal.fin 1) ∧
    List.lookup "Beta" (calculate_all_metrics
        [Val.fin (1/100), Val.fin (2/100)] [Val.fin (1/100), Val.fin (2/100)]) ≠
      some MVal.nan := by
  with_unfolding_all decide

/-- C1 witness: the amended statement instantiated at the identical
series 1 percent, 2 percent (variance positive, so Beta = 1). -/
theorem c1_witness :
    allFinite [Val.fin (1/100), Val.fin (2/100)] = true ∧
    ([Val.fin (1/100), Val.fin (2/100)] : List Val) ≠ [] ∧
    (List.lookup "Information Ratio" (calculate_all_metrics
        [Val.fin (1/100), Val.fin (2/100)] [Val.fin (1/100), Val.fin (2/100)]) =
      some MVal.nan ∧
    (∃ q : ℚ, List.lookup "Total Return" (calculate_all_metrics
        [Val.fin (1/100), Val.fin (2/100)] [Val.fin (1/100), Val.fin (2/100)]) =
      some (MVal.fin q)) ∧
    List.lookup "Beta" (calculate_all_metrics
        [Val.fin (1/100), Val.fin (2/100)] [Val.fin (1/100), Val.fin (2/100)]) =
      some (if ([Val.fin (1/100), Val.fin (2/100)] : List Val).length < 2 ∨
          qvar (toQ [Val.fin (1/100), Val.fin (2/100)]) = 0
        then MVal.nan else MVal.fin 1)) :=
  ⟨by with_unfolding_all decide, by decide,
    c1_identical_series _ (by with_unfolding_all decide) (by decide)⟩

/-- C2 (code bug): the spec says every metric depending on a series with
an infinite value is NaN, and the repository's own test asserts all
metrics should be NaN for invalid data; but for stock returns [inf]
against benchmark [1.0] the engine returns Total Return = +inf and
Relative Strength = +inf. -/
theorem c2_infinite_input_not_nan :
    List.lookup "Total Return" (calculate_all_metrics [Val.inf] [Val.fin 1]) =
      some MVal.inf ∧
    List.lookup "Relative Strength" (calculate_all_metrics [Val.inf] [Val.fin 1]) =
      some MVal.inf ∧
    MVal.inf ≠ MVal.nan := by
  with_unfolding_all decide

/-- C3 (code bug): the six keys are always present in registration order,
for every input; but the value bound to Total Return for stock returns
[inf] against benchmark [1.0] is +inf, which is neither a finite value
nor the NaN marker, refuting finite-or-NaN for all inputs. -/
theorem c3_keys_and_infinite_value :
    (∀ s b : List Val, (calculate_all_metrics s b).map Prod.fst = metricNames) ∧
    (List.lookup "Total Return" (calculate_all_metrics [Val.inf] [Val.fin 1]) =
        some MVal.inf ∧
      MVal.inf.isFiniteM = false ∧ MVal.inf ≠ MVal.nan) := by
  constructor
  · intro s b
    unfold calculate_all_metrics
    split
    · simp [metricNames]
    · rfl
  · with_unfolding_all decide

/-- C7: for every aligned pair of all-finite equal-length return series
with at least two observations and positive benchmark sample variance,
Beta is a finite rational and the sample covariance equals Beta times the
sample variance of the benchmark, exactly. -/
theorem c7_beta_covariance (s b : List Val) (hfs : allFinite s = true)
    (hfb : allFinite b = true) (hlen : s.length = b.length)
    (h2 : 2 ≤ s.length) (hv : 0 < qvar (toQ b)) :
    ∃ q : ℚ, BetaCalculator.calculate s b = MVal.fin q ∧
      qcov (toQ s) (toQ b) = q * qvar (toQ b) := by
  refine ⟨qcov (toQ s) (toQ b) / qvar (toQ b), ?_, ?_⟩
  · unfold BetaCalculator.calculate
    rw [if_neg (by simp only [Bool.or_eq_true, decide_eq_true_eq]; omega),
      if_neg (by simp [hfs, hfb]), if_neg (by simp [hlen]), if_neg hv.ne']
  · rw [div_mul_cancel₀ _ hv.ne']

/-- C7 witness: the identity instantiated at stock (1 percent, 2 percent)
against benchmark (0, 2 percent). -/
theorem c7_witness :
    allFinite [Val.fin (1/100), Val.fin (2/100)] = true ∧
    allFinite [Val.fin 0, Val.fin (2/100)] = true ∧
    ([Val.fin (1/100), Val.fin (2/100)] : List Val).length =
      ([Val.fin 0, Val.fin (2/100)] : List Val).length ∧
    2 ≤ ([Val.fin (1/100), Val.fin (2/100)] : List Val).length ∧
    0 < qvar (toQ [Val.fin 0, Val.fin (2/100)]) ∧
    (∃ q : ℚ, BetaCalculator.calculate [Val.fin (1/100), Val.fin (2/100)]
        [Val.fin 0, Val.fin (2/100)] = MVal.fin q ∧
      qcov (toQ [Val.fin (1/100), Val.fin (2/100)])
          (toQ [Val.fin 0, Val.fin (2/100)]) =
        q * qvar (toQ [Val.fin 0, Val.fin (2/100)])) :=
  ⟨by with_unfolding_all decide, by with_unfolding_all decide, by decide,
    by decide, by with_unfolding_all decide,
    c7_beta_covariance _ _ (by with_unfolding_all decide)
      (by with_unfolding_all decide) (by decide) (by decide)
      (by with_unfolding_all decide)⟩

theorem validate_eq_specOrder (data : Option (List Val)) (t : String) :
    DataValidator.validate_stock_data data t = validateSpecOrder data t := by
  cases data with
  | none => with_unfolding_all rfl
  | some d =>
      simp only [DataValidator.validate_stock_data, validateSpecOrder,
        specCheckEmpty, specCheckLength, specCheckMissing, specCheckQuality,
        specCheckAnomaly, firstFailure, Option.getD_some]
      split_ifs <;> rfl

/-- C8: the validator performs its checks in the claimed fixed order,
returning the reason of the first failing check; a 3-point series is
rejected with the insufficient-data-points reason (whose lowercasing
starts with the claimed phrase), and a 25-point series of positive,
strictly increasing prices is accepted as Valid. -/
theorem c8_validation_order :
    (∀ (data : Option (List Val)) (t : String),
        DataValidator.validate_stock_data data t = validateSpecOrder data t) ∧
    DataValidator.validate_stock_data
        (some [Val.fin 100, Val.fin 101, Val.fin 102]) "TST" =
      (false, "Insufficient data points: 3") ∧
    (∃ rest : String,
      ("Insufficient data points: 3").toLower =
        "insufficient data points" ++ rest) ∧
    DataValidator.validate_stock_data
        (some ((List.range 25).map fun i => Val.fin (100 + i))) "TST" =
      (true, "Valid") := by
  refine ⟨validate_eq_specOrder, ?_, ⟨": 3", ?_⟩, ?_⟩
  · with_unfolding_all decide
  · with_unfolding_all rfl
  · with_unfolding_all decide

theorem detect_anomalies_le_two (vals : List Val) :
    (DataValidator.detect_anomalies vals).length ≤ 2 := by
  simp only [DataValidator.detect_anomalies]
  split_ifs <;> simp

/-- C9: detect_anomalies returns at most the two fixed labels, so the
anomaly-count check (> 3) never fires and validate_stock_data behaves
exactly like its variant with the multiple-anomalies failure branch
removed, on every input. -/
theorem c9_multiple_anomalies_unreachable :
    (∀ vals : List Val, (DataValidator.detect_anomalies vals).length ≤ 2) ∧
    (∀ (data : Option (List Val)) (t : String),
        DataValidator.validate_stock_data data t =
          validateNoAnomalyBranch data t) := by
  refine ⟨detect_anomalies_le_two, ?_⟩
  intro data t
  cases data with
  | none => rfl
  | some d =>
      have hle := detect_anomalies_le_two d
      simp only [DataValidator.validate_stock_data, validateNoAnomalyBranch]
      split_ifs <;> first | rfl | omega

theorem char_eq_of_toNat {c d : Char} (h : c.toNat = d.toNat) : c = d :=
  Char.ext (UInt32.ext h)

theorem char_ne_iff_toNat (c d : Char) : c ≠ d ↔ c.toNat ≠ d.toNat := by
  constructor
  · intro h he
    exact h (char_eq_of_toNat he)
  · intro h he
    exact h (he ▸ rfl)

theorem toUpper_toNat (c : Char) :
    (Char.toUpper c).toNat =
      if 97 ≤ c.toNat ∧ c.toNat ≤ 122 then c.toNat - 32 else c.toNat := by
  have hdef : Char.toUpper c =
      if c.toNat ≥ 97 ∧ c.toNat ≤ 122 then Char.ofNat (c.toNat - 32) else c := rfl
  rw [hdef]
  by_cases h : 97 ≤ c.toNat ∧ c.toNat ≤ 122
  · rw [if_pos h, if_pos h]
    have hv : (c.toNat - 32).isValidChar := Or.inl (by omega)
    rw [Char.ofNat, dif_pos hv]
    rfl
  · rw [if_neg h, if_neg h]

theorem toUpper_not_lower (c : Char) :
    ¬(97 ≤ (Char.toUpper c).toNat ∧ (Char.toUpper c).toNat ≤ 122) := by
  rw [toUpper_toNat]
  split_ifs with h <;> omega

theorem toUpper_idem (c : Char) :
    Char.toUpper (Char.toUpper c) = Char.toUpper c := by
  have h := toUpper_not_lower c
  have hdef : Char.toUpper (Char.toUpper c) =
      if (Char.toUpper c).toNat ≥ 97 ∧ (Char.toUpper c).toNat ≤ 122 then
        Char.ofNat ((Char.toUpper c).toNat - 32)
      else Char.toUpper c := rfl
  rw [hdef, if_neg h]

theorem ws_false_iff (c : Char) :
    c.isWhitespace = false ↔
      c.toNat ≠ 32 ∧ c.toNat ≠ 9 ∧ c.toNat ≠ 13 ∧ c.toNat ≠ 10 := by
  have h1 : (' ' : Char).toNat = 32 := rfl
  have h2 : ('\t' : Char).toNat = 9 := rfl
  have h3 : ('\x0d' : Char).toNat = 13 := rfl
  have h4 : ('\n' : Char).toNat = 10 := rfl
  simp only [Char.isWhitespace, Bool.or_eq_false_iff, decide_eq_false_iff_not,
    char_ne_iff_toNat, h1, h2, h3, h4]
  tauto

theorem toUpper_not_ws (c : Char) (h : c.isWhitespace = false) :
    (Char.toUpper c).isWhitespace = false := by
  rw [ws_false_iff] at h ⊢
  rw [toUpper_toNat]
  split_ifs with hl <;> omega

theorem dropWhile_eq_drop_form {α : Type} (p : α → Bool) (l : List α) :
    ∃ n, l.dropWhile p = l.drop n := by
  induction l with
  | nil => exact ⟨0, rfl⟩
  | cons a l ih =>
      by_cases h : p a
      · obtain ⟨n, hn⟩ := ih
        exact ⟨n + 1, by simp [List.dropWhile_cons, h, hn]⟩
      · exact ⟨0, by simp [List.dropWhile_cons, h]⟩

theorem getLast?_dropWhile {α : Type} (p : α → Bool) (l : List α)
    (h : l.dropWhile p ≠ []) : (l.dropWhile p).getLast? = l.getLast? := by
  obtain ⟨n, hn⟩ := dropWhile_eq_drop_form p l
  rw [hn] at h ⊢
  rw [List.getLast?_drop, if_neg]
  intro hle
  exact h (List.drop_eq_nil_of_le hle)

theorem head?_dropWhile_false {α : Type} (p : α → Bool) (l : List α)
    (c : α) (hc : (l.dropWhile p).head? = some c) : p c = false := by
  have h := List.head?_dropWhile_not p l
  rw [hc] at h
  exact h

theorem pyStrip_head_not_ws (l : List Char) (c : Char)
    (hc : (pyStrip l).head? = some c) : c.isWhitespace = false := by
  unfold pyStrip at hc
  rw [List.head?_reverse] at hc
  by_cases h2 :
      (l.dropWhile Char.isWhitespace).reverse.dropWhile Char.isWhitespace = []
  · rw [h2] at hc
    simp at hc
  · rw [getLast?_dropWhile _ _ h2, List.getLast?_reverse] at hc
    exact head?_dropWhile_false _ _ c hc

theorem pyStrip_last_not_ws (l : List Char) (c : Char)
    (hc : (pyStrip l).getLast? = some c) : c.isWhitespace = false := by
  unfold pyStrip at hc
  rw [List.getLast?_reverse] at hc
  exact head?_dropWhile_false _ _ c hc

theorem pyStrip_eq_self (l : List Char)
    (hh : ∀ c, l.head? = some c → c.isWhitespace = false)
    (hl : ∀ c, l.getLast? = some c → c.isWhitespace = false) :
    pyStrip l = l := by
  unfold pyStrip
  have h1 : l.dropWhile Char.isWhitespace = l := by
    cases l with
    | nil => rfl
    | cons a r => rw [List.dropWhile_cons, if_neg (by simp [hh a rfl])]
  rw [h1]
  have h2 : l.reverse.dropWhile Char.isWhitespace = l.reverse := by
    cases hr : l.reverse with
    | nil => rfl
    | cons a r =>
        have ha : l.getLast? = some a := by
          rw [← List.head?_reverse, hr]
          rfl
        rw [List.dropWhile_cons, if_neg (by simp [hl a ha])]
  rw [h2, List.reverse_reverse]

theorem sanitize_data_eq (t : String) :
    DataValidator.sanitize_ticker t = ⟨sanList t.data⟩ := rfl

theorem mem_sanList (l : List Char) (c : Char) (hc : c ∈ sanList l) :
    (∃ c0, c = Char.toUpper c0) ∧ c ≠ ' ' := by
  unfold sanList at hc
  have h1 := List.mem_filter.mp hc
  obtain ⟨c0, _, rfl⟩ := List.mem_map.mp h1.1
  exact ⟨⟨c0, rfl⟩, by simpa using h1.2⟩

theorem filtmap_head_not_ws (x : List Char)
    (hx : ∀ c, x.head? = some c → c.isWhitespace = false) (c : Char)
    (hc : ((x.map Char.toUpper).filter fun c => c ≠ ' ').head? = some c) :
    c.isWhitespace = false := by
  cases x with
  | nil => simp at hc
  | cons c0 r =>
      have hc0 : c0.isWhitespace = false := hx c0 rfl
      have hwu : (Char.toUpper c0).isWhitespace = false := toUpper_not_ws c0 hc0
      have hne : Char.toUpper c0 ≠ ' ' := by
        rw [ws_false_iff] at hwu
        rw [char_ne_iff_toNat]
        have : (' ' : Char).toNat = 32 := rfl
        omega
      rw [List.map_cons, List.filter_cons, if_pos (by simpa using hne)] at hc
      simp only [List.head?_cons, Option.some.injEq] at hc
      rw [← hc]
      exact hwu

theorem sanList_head_not_ws (l : List Char) (c : Char)
    (hc : (sanList l).head? = some c) : c.isWhitespace = false :=
  filtmap_head_not_ws (pyStrip l) (pyStrip_head_not_ws l) c hc

theorem sanList_last_not_ws (l : List Char) (c : Char)
    (hc : (sanList l).getLast? = some c) : c.isWhitespace = false := by
  have hrev : (sanList l).reverse =
      (((pyStrip l).reverse.map Char.toUpper).filter fun c => c ≠ ' ') := by
    unfold sanList
    rw [List.map_reverse, List.filter_reverse]
  have hc2 :
      ((((pyStrip l).reverse.map Char.toUpper).filter fun c => c ≠ ' ').head? =
        some c) := by
    rw [← hrev, List.head?_reverse]
    exact hc
  refine filtmap_head_not_ws _ ?_ c hc2
  intro c0 hc0
  rw [List.head?_reverse] at hc0
  exact pyStrip_last_not_ws l c0 hc0

theorem sanList_idem (l : List Char) : sanList (sanList l) = sanList l := by
  have hstrip : pyStrip (sanList l) = sanList l :=
    pyStrip_eq_self _ (sanList_head_not_ws l) (sanList_last_not_ws l)
  show ((pyStrip (sanList l)).map Char.toUpper).filter (fun c => c ≠ ' ') =
    sanList l
  rw [hstrip]
  have hmap : (sanList l).map Char.toUpper = sanList l := by
    have : ∀ c ∈ sanList l, Char.toUpper c = c := by
      intro c hc
      obtain ⟨⟨c0, rfl⟩, _⟩ := mem_sanList l c hc
      exact toUpper_idem c0
    calc (sanList l).map Char.toUpper = (sanList l).map id :=
          List.map_congr_left this
      _ = sanList l := List.map_id _
  rw [hmap]
  rw [List.filter_eq_self]
  intro a ha
  exact by simpa using (mem_sanList l a ha).2

/-- C10: sanitize_ticker is idempotent, and its output contains no space
and no (ASCII) lowercase letter. -/
theorem c10_sanitize_ticker (t : String) :
    DataValidator.sanitize_ticker (DataValidator.sanitize_ticker t) =
      DataValidator.sanitize_ticker t ∧
    ∀ c ∈ (DataValidator.sanitize_ticker t).data,
      c ≠ ' ' ∧ ¬(97 ≤ c.toNat ∧ c.toNat ≤ 122) := by
  constructor
  · rw [sanitize_data_eq t, sanitize_data_eq]
    show (⟨sanList (sanList t.data)⟩ : String) = ⟨sanList t.data⟩
    rw [sanList_idem]
  · intro c hc
    rw [sanitize_data_eq t] at hc
    obtain ⟨⟨c0, rfl⟩, hne⟩ := mem_sanList t.data c hc
    exact ⟨hne, toUpper_not_lower c0⟩

/-- C4: with the benchmark fetched, an instrument whose series fails
validation, or whose processing raises, contributes nothing: the
screening result with that ticker anywhere in the batch equals the result
without it, so the failure neither yields a row nor aborts the rest. -/
theorem c4_error_isolation (fetch : Fetcher) (bench : String) (lb : Nat)
    (bd : Series) (xs ys : List String) (t m : String) (sd : Series)
    (hbench : fetch bench = FetchResult.data bd)
    (hskip :
      (fetch (DataValidator.sanitize_ticker t) = FetchResult.data sd ∧
        (DataValidator.validate_stock_data (some (sd.map Prod.snd))
          (DataValidator.sanitize_ticker t)).1 = false) ∨
      fetch (DataValidator.sanitize_ticker t) = FetchResult.err m) :
    ScreenerEngine.screen_stocks fetch (xs ++ t :: ys) bench lb =
      ScreenerEngine.screen_stocks fetch (xs ++ ys) bench lb := by
  have hnone : ScreenerEngine.processTicker fetch bd lb t = none := by
    simp only [ScreenerEngine.processTicker]
    rcases hskip with ⟨hd, hv⟩ | he
    · rw [hd]
      simp [hv]
    · rw [he]
  simp only [ScreenerEngine.screen_stocks, hbench]
  rw [List.filterMap_append, List.filterMap_append]
  simp [List.filterMap_cons, hnone]

/-- C4 witness: a concrete environment in which ticker "V" fetches a
3-point series that fails validation, and the batch result equals the
batch without "V". -/
theorem c4_witness :
    ((fun s => if s = "BEN" then FetchResult.data [(0, Val.fin 5)]
        else if s = "V" then
          FetchResult.data [(0, Val.fin 1), (1, Val.fin 2), (2, Val.fin 3)]
        else FetchResult.noData) : Fetcher) "BEN" =
      FetchResult.data [(0, Val.fin 5)] ∧
    ((fun s => if s = "BEN" then FetchResult.data [(0, Val.fin 5)]
        else if s = "V" then
          FetchResult.data [(0, Val.fin 1), (1, Val.fin 2), (2, Val.fin 3)]
        else FetchResult.noData) : Fetcher)
        (DataValidator.sanitize_ticker "V") =
      FetchResult.data [(0, Val.fin 1), (1, Val.fin 2), (2, Val.fin 3)] ∧
    (DataValidator.validate_stock_data
        (some (([(0, Val.fin 1), (1, Val.fin 2), (2, Val.fin 3)] :
          Series).map Prod.snd))
        (DataValidator.sanitize_ticker "V")).1 = false ∧
    ScreenerEngine.screen_stocks
        (fun s => if s = "BEN" then FetchResult.data [(0, Val.fin 5)]
          else if s = "V" then
            FetchResult.data [(0, Val.fin 1), (1, Val.fin 2), (2, Val.fin 3)]
          else FetchResult.noData) ([] ++ "V" :: []) "BEN" 99 =
      ScreenerEngine.screen_stocks
        (fun s => if s = "BEN" then FetchResult.data [(0, Val.fin 5)]
          else if s = "V" then
            FetchResult.data [(0, Val.fin 1), (1, Val.fin 2), (2, Val.fin 3)]
          else FetchResult.noData) ([] ++ []) "BEN" 99 :=
  ⟨by with_unfolding_all decide, by with_unfolding_all decide,
    by with_unfolding_all decide,
    c4_error_isolation _ "BEN" 99 [(0, Val.fin 5)] [] [] "V" ""
      [(0, Val.fin 1), (1, Val.fin 2), (2, Val.fin 3)]
      (by with_unfolding_all decide)
      (Or.inl ⟨by with_unfolding_all decide, by with_unfolding_all decide⟩)⟩

/-- C5: when the benchmark fetch returns no data, screen_stocks is the
single fatal error naming the benchmark, never an ok report; and an ok
empty report is what a run with data but no rows returns, so the two
outcomes are distinguishable. -/
theorem c5_fatal_benchmark (fetch : Fetcher) (tickers : List String)
    (bench : String) (lb : Nat) (hnb : fetch bench = FetchResult.noData) :
    ScreenerEngine.screen_stocks fetch tickers bench lb =
      .error ("Cannot fetch benchmark data for " ++ bench) ∧
    (∀ rows : List Row,
      ScreenerEngine.screen_stocks fetch tickers bench lb ≠ .ok rows) ∧
    (∀ (fetch2 : Fetcher) (bd : Series), fetch2 bench = FetchResult.data bd →
      ScreenerEngine.screen_stocks fetch2 [] bench lb = .ok []) := by
  refine ⟨?_, ?_, ?_⟩
  · simp [ScreenerEngine.screen_stocks, hnb]
  · intro rows
    simp [ScreenerEngine.screen_stocks, hnb]
  · intro fetch2 bd h2
    simp [ScreenerEngine.screen_stocks, h2]

/-- C5 witness: a fetcher with no benchmark data produces exactly the
fatal error, and a fetcher with benchmark data and no tickers produces
the empty report. -/
theorem c5_witness :
    ((fun _ => FetchResult.noData) : Fetcher) "SPY" = FetchResult.noData ∧
    (ScreenerEngine.screen_stocks (fun _ => FetchResult.noData) ["A"] "SPY" 3 =
        .error ("Cannot fetch benchmark data for " ++ "SPY") ∧
      (∀ rows : List Row,
        ScreenerEngine.screen_stocks (fun _ => FetchResult.noData) ["A"] "SPY" 3 ≠
          .ok rows) ∧
      (∀ (fetch2 : Fetcher) (bd : Series), fetch2 "SPY" = FetchResult.data bd →
        ScreenerEngine.screen_stocks fetch2 [] "SPY" 3 = .ok [])) :=
  ⟨rfl, c5_fatal_benchmark _ ["A"] "SPY" 3 rfl⟩

theorem msign_cases (a b : ℚ) :
    (msign a b = 1 ∧ 0 < a ∧ 0 < b) ∨
    (msign a b = -1 ∧ a < 0 ∧ 0 < b) ∨
    (msign a b = 0 ∧ (a : ℝ) * Real.sqrt b = 0) := by
  unfold msign
  split_ifs with h1 h2 h3
  · right; right
    refine ⟨rfl, ?_⟩
    have hb : ((b : ℝ)) ≤ 0 := by exact_mod_cast h1
    rw [Real.sqrt_eq_zero'.mpr hb, mul_zero]
  · left; exact ⟨rfl, h2, by linarith⟩
  · right; left; exact ⟨rfl, h3, by linarith⟩
  · right; right
    refine ⟨rfl, ?_⟩
    have ha : a = 0 := by linarith
    rw [ha]
    push_cast
    ring

theorem sqrt_term_pos (a b : ℚ) (ha : 0 < a) (hb : 0 < b) :
    0 < (a : ℝ) * Real.sqrt b :=
  mul_pos (by exact_mod_cast ha) (Real.sqrt_pos.mpr (by exact_mod_cast hb))

theorem sqrt_term_neg (a b : ℚ) (ha : a < 0) (hb : 0 < b) :
    (a : ℝ) * Real.sqrt b < 0 :=
  mul_neg_of_neg_of_pos (by exact_mod_cast ha) (Real.sqrt_pos.mpr (by exact_mod_cast hb))

theorem sqrt_term_sq (a b : ℚ) (hb : 0 ≤ b) :
    ((a : ℝ) * Real.sqrt b) ^ 2 = (a : ℝ) ^ 2 * (b : ℝ) := by
  rw [mul_pow, Real.sq_sqrt (by exact_mod_cast hb : (0:ℝ) ≤ (b:ℝ))]

theorem sqLe_iff (a b c d : ℚ) :
    sqLe a b c d = true ↔ (a : ℝ) * Real.sqrt b ≤ (c : ℝ) * Real.sqrt d := by
  unfold sqLe
  rcases msign_cases a b with ⟨h1, ha, hb⟩ | ⟨h1, ha, hb⟩ | ⟨h1, hu⟩ <;>
    rcases msign_cases c d with ⟨h2, hc, hd⟩ | ⟨h2, hc, hd⟩ | ⟨h2, hv⟩ <;>
    rw [h1, h2] <;> norm_num
  · -- both positive: compare squares
    have hup := sqrt_term_pos a b ha hb
    have hvp := sqrt_term_pos c d hc hd
    rw [← pow_le_pow_iff_left₀ hup.le hvp.le (two_ne_zero),
      sqrt_term_sq a b hb.le, sqrt_term_sq c d hd.le]
    constructor <;> intro h <;> exact_mod_cast h
  · -- positive vs negative: not below
    have hup := sqrt_term_pos a b ha hb
    have hvn := sqrt_term_neg c d hc hd
    linarith
  · -- positive vs zero: not below
    have hup := sqrt_term_pos a b ha hb
    rw [hv]
    linarith
  · -- negative vs positive: below
    have hun := sqrt_term_neg a b ha hb
    have hvp := sqrt_term_pos c d hc hd
    linarith
  · -- both negative: compare squares, reversed
    have hun := sqrt_term_neg a b ha hb
    have hvn := sqrt_term_neg c d hc hd
    have hkey : (a : ℝ) * Real.sqrt b ≤ (c : ℝ) * Real.sqrt d ↔
        -((c : ℝ) * Real.sqrt d) ≤ -((a : ℝ) * Real.sqrt b) := by
      constructor <;> intro h <;> linarith
    rw [hkey, ← pow_le_pow_iff_left₀ (neg_nonneg.mpr hvn.le)
        (neg_nonneg.mpr hun.le) (two_ne_zero),
      neg_sq, neg_sq, sqrt_term_sq a b hb.le, sqrt_term_sq c d hd.le]
    constructor <;> intro h <;> exact_mod_cast h
  · -- negative vs zero: below
    have hun := sqrt_term_neg a b ha hb
    rw [hv]
    linarith
  · -- zero vs positive: below
    have hvp := sqrt_term_pos c d hc hd
    rw [hu]
    linarith
  · -- zero vs negative: not below
    have hvn := sqrt_term_neg c d hc hd
    rw [hu]
    linarith
  · -- zero vs zero
    rw [hu, hv]

theorem toR_pair (x : MVal) (hx : x.isFiniteM = true) :
    x.toR = (x.sqPair.1 : ℝ) * Real.sqrt x.sqPair.2 := by
  cases x with
  | fin q =>
      show (q : ℝ) = (q : ℝ) * Real.sqrt ((1 : ℚ) : ℝ)
      push_cast
      rw [Real.sqrt_one, mul_one]
  | finSqrt a b => rfl
  | inf => simp [MVal.isFiniteM] at hx
  | ninf => simp [MVal.isFiniteM] at hx
  | nan => simp [MVal.isFiniteM] at hx

theorem leb_iff_toR (x y : MVal) (hx : x.isFiniteM = true)
    (hy : y.isFiniteM = true) :
    MVal.leb x y = true ↔ x.toR ≤ y.toR := by
  rw [toR_pair x hx, toR_pair y hy]
  cases x <;> cases y <;>
    first
      | exact sqLe_iff _ _ _ _
      | simp [MVal.isFiniteM] at hx hy

theorem leb_total (x y : MVal) : MVal.leb x y = true ∨ MVal.leb y x = true := by
  cases x <;> cases y <;>
    first
      | (left; rfl)
      | (right; rfl)
      | (simp only [MVal.leb, MVal.sqPair]
         rw [sqLe_iff, sqLe_iff]
         exact le_total _ _)

theorem leb_trans (x y z : MVal) (h1 : MVal.leb x y = true)
    (h2 : MVal.leb y z = true) : MVal.leb x z = true := by
  cases x <;> cases y <;> cases z <;>
    first
      | rfl
      | exact h1
      | exact h2
      | (simp only [MVal.leb, MVal.sqPair] at h1 h2 ⊢
         rw [sqLe_iff] at h1 h2 ⊢
         linarith)
      | (simp only [MVal.leb] at h1 <;> exact Bool.noConfusion h1)
      | (simp only [MVal.leb] at h2 <;> exact Bool.noConfusion h2)

theorem bef_total (x y : MVal) : MVal.bef x y = true ∨ MVal.bef y x = true := by
  unfold MVal.bef
  by_cases hy : y = MVal.nan
  · left; rw [if_pos hy]
  · by_cases hx : x = MVal.nan
    · right; rw [if_pos hx]
    · rw [if_neg hy, if_neg hx, if_neg hx, if_neg hy]
      exact (leb_total x y).symm

theorem bef_trans (x y z : MVal) (h1 : MVal.bef x y = true)
    (h2 : MVal.bef y z = true) : MVal.bef x z = true := by
  unfold MVal.bef at h1 h2 ⊢
  by_cases hz : z = MVal.nan
  · rw [if_pos hz]
  · rw [if_neg hz] at h2 ⊢
    by_cases hy : y = MVal.nan
    · rw [if_pos hy] at h2
      exact absurd h2 (by simp)
    · rw [if_neg hy] at h2
      rw [if_neg hy] at h1
      by_cases hx : x = MVal.nan
      · rw [if_pos hx] at h1
        exact absurd h1 (by simp)
      · rw [if_neg hx] at h1 ⊢
        exact leb_trans z y x h2 h1

theorem ir_calc_shape (s b : List Val) :
    InformationRatio.calculate s b = MVal.nan ∨
      (InformationRatio.calculate s b).isFiniteM = true := by
  simp only [InformationRatio.calculate]
  split
  · left; rfl
  split
  · left; rfl
  split
  · left; rfl
  right; rfl

theorem irOf_calc (t : String) (s b : List Val) (hs : s ≠ []) (hb : b ≠ []) :
    irOf (t, calculate_all_metrics s b) = InformationRatio.calculate s b := by
  show (List.lookup "Information Ratio" (calculate_all_metrics s b)).getD
    MVal.nan = _
  rw [lookup_ir s b hs hb]
  rfl

theorem irOf_calc_empty (t : String) (s b : List Val)
    (h : s.length = 0 ∨ b.length = 0) :
    irOf (t, calculate_all_metrics s b) = MVal.nan := by
  unfold irOf calculate_all_metrics
  rw [if_pos (by simpa using h)]
  rfl

theorem irOf_shape (t : String) (s b : List Val) :
    irOf (t, calculate_all_metrics s b) = MVal.nan ∨
      (irOf (t, calculate_all_metrics s b)).isFiniteM = true := by
  by_cases hs : s = []
  · left; exact irOf_calc_empty t s b (Or.inl (by simp [hs]))
  · by_cases hb : b = []
    · left; exact irOf_calc_empty t s b (Or.inr (by simp [hb]))
    · rw [irOf_calc t s b hs hb]
      exact ir_calc_shape s b

theorem calculate_metrics_shape (sd bd : Series) (lb : Nat)
    (m : List (String × MVal))
    (h : ScreenerEngine.calculate_metrics sd bd lb = some m) :
    ∃ X Y : List Val, m = calculate_all_metrics X Y := by
  simp only [ScreenerEngine.calculate_metrics] at h
  split_ifs at h <;>
    first
      | exact Option.noConfusion h
      | exact ⟨_, _, (Option.some.inj h).symm⟩

theorem processTicker_shape (fetch : Fetcher) (bd : Series) (lb : Nat)
    (tick : String) (r : Row)
    (h : ScreenerEngine.processTicker fetch bd lb tick = some r) :
    ∃ X Y : List Val, r.2 = calculate_all_metrics X Y := by
  simp only [ScreenerEngine.processTicker] at h
  split at h
  · exact Option.noConfusion h
  · exact Option.noConfusion h
  · split at h
    · exact Option.noConfusion h
    · split at h
      · exact Option.noConfusion h
      · rename_i sd heq m hm
        obtain ⟨X, Y, hXY⟩ := calculate_metrics_shape _ _ _ m hm
        have hr := Option.some.inj h
        rw [← hr]
        exact ⟨X, Y, hXY⟩

theorem sorted_report (rows : List Row)
    (hshape : ∀ r ∈ rows, irOf r = MVal.nan ∨ (irOf r).isFiniteM = true) :
    (sortByIRDesc rows).Pairwise irDescNanLast := by
  have hperm : (sortByIRDesc rows).Perm rows := List.perm_insertionSort _ _
  have hsorted : (sortByIRDesc rows).Pairwise rowBef :=
    @List.sorted_insertionSort Row rowBef _ ⟨fun a b => bef_total _ _⟩
      ⟨fun a b c => bef_trans _ _ _⟩ rows
  refine hsorted.imp_of_mem ?_
  intro r1 r2 h1 h2 hr
  have s1 := hshape r1 (hperm.subset h1)
  have s2 := hshape r2 (hperm.subset h2)
  unfold rowBef MVal.bef at hr
  unfold irDescNanLast
  by_cases hy : irOf r2 = MVal.nan
  · left; exact hy
  · rw [if_neg hy] at hr
    by_cases hx : irOf r1 = MVal.nan
    · rw [if_pos hx] at hr
      exact absurd hr (by simp)
    · rw [if_neg hx] at hr
      refine Or.inr ⟨hx, ?_⟩
      have f1 : (irOf r1).isFiniteM = true := s1.resolve_left hx
      have f2 : (irOf r2).isFiniteM = true := s2.resolve_left hy
      exact (leb_iff_toR _ _ f2 f1).mp hr

/-- C6: with the benchmark fetched, every screening run returns a report
whose rows are pairwise ordered descending by the real value of the
Information Ratio column with NaN rows last; and an instrument whose
aligned return pair, before truncation to the window, is shorter than
lookback contributes no row: the run with it equals the run without it. -/
theorem c6_sorted_and_lookback (fetch : Fetcher) (bench : String) (lb : Nat)
    (bd : Series) (xs ys : List String) (t : String) (sd : Series)
    (hbench : fetch bench = FetchResult.data bd) :
    (∀ tickers, ∃ rows,
      ScreenerEngine.screen_stocks fetch tickers bench lb = .ok rows ∧
        rows.Pairwise irDescNanLast) ∧
    (fetch (DataValidator.sanitize_ticker t) = FetchResult.data sd →
      (alignReturns (dropna (pct_change sd)) (dropna (pct_change bd))).length < lb →
      ScreenerEngine.screen_stocks fetch (xs ++ t :: ys) bench lb =
        ScreenerEngine.screen_stocks fetch (xs ++ ys) bench lb) := by
  constructor
  · intro tickers
    simp only [ScreenerEngine.screen_stocks, hbench]
    by_cases he :
        (tickers.filterMap (ScreenerEngine.processTicker fetch bd lb)).isEmpty
    · exact ⟨[], by rw [if_pos he], List.Pairwise.nil⟩
    · refine ⟨sortByIRDesc _, by rw [if_neg he], ?_⟩
      apply sorted_report
      intro r hr
      obtain ⟨tick, _, hpt⟩ := List.mem_filterMap.mp hr
      obtain ⟨X, Y, hXY⟩ := processTicker_shape fetch bd lb tick r hpt
      have : irOf r = irOf (r.1, calculate_all_metrics X Y) := by
        unfold irOf
        rw [hXY]
      rw [this]
      exact irOf_shape r.1 X Y
  · intro hft hlen
    have hcm : ScreenerEngine.calculate_metrics sd bd lb = none := by
      simp only [ScreenerEngine.calculate_metrics]
      by_cases h1 : sd.length = 0
      · rw [if_pos h1]
      · rw [if_neg h1]
        by_cases h2 : bd.length = 0
        · rw [if_pos h2]
        · rw [if_neg h2, if_pos hlen]
    have hnone : ScreenerEngine.processTicker fetch bd lb t = none := by
      simp only [ScreenerEngine.processTicker]
      rw [hft]
      by_cases hv : (DataValidator.validate_stock_data (some (sd.map Prod.snd))
          (DataValidator.sanitize_ticker t)).1
      · simp [hv, hcm]
      · simp [hv]
    simp only [ScreenerEngine.screen_stocks, hbench]
    rw [List.filterMap_append, List.filterMap_append]
    simp [List.filterMap_cons, hnone]

/-- C6 witness: the sortedness and exclusion statement instantiated in a
concrete environment whose benchmark fetch succeeds. -/
theorem c6_witness :
    ((fun s => if s = "B6" then FetchResult.data [(0, Val.fin 1), (1, Val.fin 2)]
        else FetchResult.noData) : Fetcher) "B6" =
      FetchResult.data [(0, Val.fin 1), (1, Val.fin 2)] ∧
    ((∀ tickers, ∃ rows,
      ScreenerEngine.screen_stocks
          (fun s => if s = "B6" then
            FetchResult.data [(0, Val.fin 1), (1, Val.fin 2)]
          else FetchResult.noData) tickers "B6" 5 = .ok rows ∧
        rows.Pairwise irDescNanLast) ∧
    ((fun s => if s = "B6" then FetchResult.data [(0, Val.fin 1), (1, Val.fin 2)]
        else FetchResult.noData) (DataValidator.sanitize_ticker "T") =
        FetchResult.data [] →
      (alignReturns (dropna (pct_change ([] : Series)))
        (dropna (pct_change [(0, Val.fin 1), (1, Val.fin 2)]))).length < 5 →
      ScreenerEngine.screen_stocks
          (fun s => if s = "B6" then
            FetchResult.data [(0, Val.fin 1), (1, Val.fin 2)]
          else FetchResult.noData) ([] ++ "T" :: []) "B6" 5 =
        ScreenerEngine.screen_stocks
          (fun s => if s = "B6" then
            FetchResult.data [(0, Val.fin 1), (1, Val.fin 2)]
          else FetchResult.noData) ([] ++ []) "B6" 5)) :=
  ⟨by with_unfolding_all decide,
    c6_sorted_and_lookback _ "B6" 5 [(0, Val.fin 1), (1, Val.fin 2)] [] [] "T" []
      (by with_unfolding_all decide)⟩

end Screener

